import Mathlib

/-!
# ddoctor: the entry point `main.go`

A shallow embedding of the two functions of `main.go`:

* `oneShotVersion` (lines 112-136): starts one goroutine per checker, receives
  `len(checks)` values from a buffered channel, serializes them and exits;
* `main` (lines 43-110): builds the checker list from the parsed configuration
  and hands it to `oneShotVersion` or to `server.Serve`.

The packages `checkers`, `config`, `presenter` and `server` are imported by
`main.go` but are not part of the embedded source. What `main.go` needs from
them is taken as a parameter: the constructors, `Serialize`, and, for each
checker, the sequence of values its `Run` sends on the channel.
-/

namespace Ddoctor

/-! ## Data -/

/-- Modelled from the spec: `checkers.CheckResult` is declared in the package
`internal/checkers`. `main.go` reads only the field `Ok`; every other field of
the struct is kept, uninterpreted, in `Rest`. -/
structure CheckResult (D : Type) where
  Ok : Bool
  Rest : D
deriving DecidableEq, Repr

/-- A value of type `*checkers.CheckResult`; `none` is the nil pointer. -/
abbrev ResultPtr (D : Type) := Option (CheckResult D)

/-- The locals of the fan-in loop of `oneShotVersion` (lines 119-126): the loop
counter `i`, `exitCode` and the slice `results`. -/
structure FanIn (D : Type) where
  i : Nat
  exitCode : Nat
  results : List (ResultPtr D)
deriving DecidableEq, Repr

/-- Lines 119-120: `exitCode := 0`, `results := make([]*CheckResult, n)` with
`n = len(checks)`; the loop counter starts at 0. -/
def FanIn.start {D : Type} (n : Nat) : FanIn D :=
  { i := 0, exitCode := 0, results := List.replicate n none }

/-- Lines 122-125, one iteration of the loop, `v` being the value the receive
`<-channel` returned: `results[i] = v`; `if results[i].Ok then exitCode = 2`;
`i++`. Reading `.Ok` through a nil pointer panics: the result is `none`. -/
def FanIn.body {D : Type} (l : FanIn D) (v : ResultPtr D) : Option (FanIn D) :=
  match v with
  | none => none
  | some r =>
    some { i := l.i + 1
           exitCode := if r.Ok then 2 else l.exitCode
           results := l.results.set l.i v }

/-- Lines 119-126 when the `len(checks)` receives return the values `received`,
in that order (so `len(checks) = received.length`). `none` is a panic. -/
def fanIn {D : Type} (received : List (ResultPtr D)) : Option (FanIn D) :=
  received.foldlM FanIn.body (FanIn.start received.length)

/-- How the process ends. `osExit c` is `os.Exit(c)` (line 135); `logFatalf m`
is `log.Fatalf` with the formatted message `m`; `panic` is a Go run-time
panic. -/
inductive Termination where
  | osExit (code : Nat)
  | logFatalf (msg : String)
  | panic
deriving DecidableEq, Repr

/-- The exit status set by the program. logrus documents `Fatalf` as logging
and then calling `os.Exit(1)`. The status after a panic is set by the Go
run time, not by this program, and is left out. -/
def Termination.exitStatus : Termination → Option Nat
  | .osExit c => some c
  | .logFatalf _ => some 1
  | .panic => none

/-- What one run of `oneShotVersion` leaves behind: the bytes written to
standard output and how the process ended. -/
structure ProcessResult where
  stdout : String
  termination : Termination
deriving DecidableEq, Repr

/-- Lines 127-135, after the loop: `presenter.Serialize(results, true)`; on an
error `log.Fatalf("Cannot serialize to JSON: %s", err.Error())`, which writes
to the logger (standard error), not to standard output; otherwise
`fmt.Println(string(serialized))` and `os.Exit(exitCode)`.
`Serialize` is the function of package `presenter`, taken as a parameter; an
error is represented by its message. -/
def oneShotTail {D : Type}
    (Serialize : List (ResultPtr D) → Bool → Except String String)
    (l : FanIn D) : ProcessResult :=
  match Serialize l.results true with
  | .error e =>
    { stdout := "", termination := .logFatalf ("Cannot serialize to JSON: " ++ e) }
  | .ok serialized =>
    { stdout := serialized ++ "\n", termination := .osExit l.exitCode }

/-- Lines 119-135 of `oneShotVersion` for a given sequence `received` of values
returned by the receives of the loop. -/
def oneShotReceived {D : Type}
    (Serialize : List (ResultPtr D) → Bool → Except String String)
    (received : List (ResultPtr D)) : ProcessResult :=
  match fanIn received with
  | none => { stdout := "", termination := .panic }
  | some l => oneShotTail Serialize l

/-! ## The goroutines and the channel -/

/-- The state of one run of `oneShotVersion` once the goroutines are started.

* `goroutines`: for each checker, in configured order, the values its `Run`
  has still to send on the channel;
* `channel`: the content of the buffered channel, oldest first;
* `loop`: the locals of the main goroutine;
* `sent`: history of every value sent on the channel so far, in send order;
* `panicked`: the main goroutine panicked. -/
structure State (D : Type) where
  goroutines : List (List (ResultPtr D))
  channel : List (ResultPtr D)
  loop : FanIn D
  sent : List (ResultPtr D)
  panicked : Bool
deriving DecidableEq, Repr

/-- One scheduling decision: goroutine `k` performs its next send, or the main
goroutine performs its next receive. -/
inductive Action where
  | send (k : Nat)
  | recv
deriving DecidableEq, Repr

/-- One step of the run; `n = len(checks)` is both the capacity of the channel
(line 113) and the bound of the loop (line 121). `none`: the action is not
enabled (the goroutine has nothing to send, the buffer is full, the channel is
empty, the loop is over, or the process has panicked). -/
def step {D : Type} (n : Nat) (s : State D) : Action → Option (State D)
  | .send k =>
    if s.panicked then none
    else
      match s.goroutines[k]? with
      | some (v :: rest) =>
        if s.channel.length < n then
          some { s with goroutines := s.goroutines.set k rest
                        channel := s.channel ++ [v]
                        sent := s.sent ++ [v] }
        else none
      | _ => none
  | .recv =>
    if s.panicked then none
    else if s.loop.i < n then
      match s.channel with
      | [] => none
      | v :: rest =>
        match s.loop.body v with
        | some l => some { s with channel := rest, loop := l }
        | none => some { s with channel := rest, panicked := true }
    else none

/-- Runs a schedule; `none` when one of its actions is not enabled. -/
def run {D : Type} (n : Nat) : State D → List Action → Option (State D)
  | s, [] => some s
  | s, a :: as =>
    match step n s a with
    | none => none
    | some t => run n t as

/-- A checker as `oneShotVersion` sees it: `none` is the nil interface value,
`some sends` a checker whose `Run` sends the values `sends` on the channel. -/
abbrev Checker (D : Type) := Option (List (ResultPtr D))

/-- Lines 115-117: `go v.Run(ctx, channel)` for each checker. The method value
`v.Run` is evaluated by the main goroutine, so a nil checker panics there
(`none`). -/
def spawn {D : Type} : List (Checker D) → Option (List (List (ResultPtr D)))
  | [] => some []
  | none :: _ => none
  | some sends :: cs =>
    match spawn cs with
    | none => none
    | some gs => some (sends :: gs)

/-- The state after lines 113-120: empty channel, all goroutines started. -/
def State.init {D : Type} (gs : List (List (ResultPtr D))) (n : Nat) : State D :=
  { goroutines := gs, channel := [], loop := FanIn.start n, sent := [], panicked := false }

/-- Lines 113-126 of `oneShotVersion` under the schedule `sched`: the locals of
the main goroutine when the loop has finished. `some none`: the main goroutine
panicked. `none`: `sched` is not the schedule of a complete run (one of its
actions is not enabled, or the loop has not finished). -/
def oneShotLoop {D : Type} (checks : List (Checker D)) (sched : List Action) :
    Option (Option (FanIn D)) :=
  match spawn checks with
  | none => some none
  | some gs =>
    match run checks.length (State.init gs checks.length) sched with
    | none => none
    | some s =>
      if s.panicked then some none
      else if s.loop.i = checks.length then some (some s.loop)
      else none

/-- The function `oneShotVersion` under the schedule `sched`: the loop, then
lines 127-135 on its locals (`results` is what `Serialize` is given). -/
def oneShotVersion {D : Type}
    (Serialize : List (ResultPtr D) → Bool → Except String String)
    (checks : List (Checker D)) (sched : List Action) : Option ProcessResult :=
  match oneShotLoop checks sched with
  | none => none
  | some none => some { stdout := "", termination := .panic }
  | some (some l) => some (oneShotTail Serialize l)

/-- The values the started goroutines send in all, listed in configured
order of the checkers. -/
def sentBy {D : Type} (checks : List (Checker D)) : List (ResultPtr D) :=
  (checks.filterMap id).flatten

/-- The values sent on the channel under the schedule `sched`, in the order
of the sends (the order of arrival on the channel). -/
def arrivals {D : Type} (checks : List (Checker D)) (sched : List Action) :
    List (ResultPtr D) :=
  match spawn checks with
  | none => []
  | some gs =>
    match run checks.length (State.init gs checks.length) sched with
    | none => []
    | some s => s.sent

/-- The schedule `sched` can be executed from the start: all goroutines are
started and each action of `sched` is enabled when its turn comes. -/
def schedulable {D : Type} (checks : List (Checker D)) (sched : List Action) : Bool :=
  match spawn checks with
  | none => false
  | some gs => (run checks.length (State.init gs checks.length) sched).isSome

/-- The invariant of a run with `n = len(checks)` and started goroutines `gs`:
the values sent so far and the values still to be sent are, together, the
values of `gs`; and, as long as the main goroutine has not panicked, `results`
has length `n`, the first `i` slots of `results` followed by the content of
the channel are the values sent so far, in send order, and the locals are
those the loop computes from the first `i` slots of `results`. -/
def Inv {D : Type} (n : Nat) (gs : List (List (ResultPtr D))) (s : State D) : Prop :=
  (s.sent ++ s.goroutines.flatten).Perm gs.flatten ∧
  (s.panicked = false →
    s.loop.results.length = n ∧
    s.loop.i ≤ n ∧
    s.sent = s.loop.results.take s.loop.i ++ s.channel ∧
    List.foldlM FanIn.body (FanIn.start n) (s.loop.results.take s.loop.i) = some s.loop)

/-! ## `main`: building the checker list -/

/-- Modelled from the spec: the element type of `cf.Checks` is declared in the
package `internal/config`. These are the fields `main.go` reads (lines 64-68
and 77-83); `Timeout` is `value.Timeout.Duration`, a `time.Duration` (a signed
count of nanoseconds), `URL` is `value.URL.URL`. The types of `Exec`, `URL` and
`StatusCodes` are parameters. The field `Type` is written `Type_`. -/
structure Check (X U C : Type) where
  Type_ : String
  Timeout : Int
  Exec : X
  URL : U
  StatusCodes : C
deriving DecidableEq, Repr

/-- Modelled from the spec: the configuration object returned by
`config.ParseConfigFile`. Its other fields (`Host`, `Port`, `Periodicity`,
`OkStatus`, `NokStatus`) are only logged by `main.go`. -/
structure Config (X U C : Type) where
  Checks : List (Check X U C)
deriving DecidableEq, Repr

/-- The three constructors of package `checkers`, taken as parameters. Each
returns a pair `(instance, err)`: a `checkers.Checker` interface value (`none`
is nil) and an `error` (`none` is nil, `some m` an error with message `m`). -/
structure Constructors (X U C K : Type) where
  NewShellChecker : Int → X → Option K × Option String
  NewCommandChecker : Int → X → Option K × Option String
  NewNetworkChecker : Int → U → C → Option K × Option String

/-- Names of the constructors, for the history of calls. -/
inductive CtorName where
  | NewShellChecker
  | NewCommandChecker
  | NewNetworkChecker
deriving DecidableEq, Repr

/-- Lines 74-84: `var instance checkers.Checker`, `var err error`, then the
`switch value.Type`. The switch has no default case: for any other `Type` no
constructor is called and both variables keep their zero value nil.
The first component says which constructor was called, if any. -/
def construct {X U C K : Type} (cs : Constructors X U C K) (value : Check X U C) :
    Option CtorName × (Option K × Option String) :=
  if value.Type_ = "shell" then
    (some .NewShellChecker, cs.NewShellChecker value.Timeout value.Exec)
  else if value.Type_ = "command" then
    (some .NewCommandChecker, cs.NewCommandChecker value.Timeout value.Exec)
  else if value.Type_ = "network" then
    (some .NewNetworkChecker, cs.NewNetworkChecker value.Timeout value.URL value.StatusCodes)
  else
    (none, (none, none))

/-- The slice `checks` under construction, with the history of constructor
calls made so far: the index of the check in `cf.Checks` and the constructor. -/
structure Build (K : Type) where
  checks : List (Option K)
  calls : List (Nat × CtorName)
deriving DecidableEq, Repr

/-- Lines 73-91, the loop over `cf.Checks` from the check of index `idx` on.
The second component is `some m` when the loop ended in
`log.Fatalf(err.Error())` (lines 86-88), `m` being the error message. -/
def buildLoop {X U C K : Type} (cs : Constructors X U C K) :
    List (Check X U C) → Nat → Build K → Build K × Option String
  | [], _, b => (b, none)
  | value :: rest, idx, b =>
    let r := construct cs value
    let calls :=
      match r.1 with
      | some c => b.calls ++ [(idx, c)]
      | none => b.calls
    match r.2.2 with
    | some m => ({ b with calls := calls }, some m)
    | none => buildLoop cs rest (idx + 1) { checks := b.checks ++ [r.2.1], calls := calls }

/-- How `main` ends: in `log.Fatalf` (lines 52 and 87; the argument is the
error message, passed as the format string), in the call
`oneShotVersion(rootCtx, checks)` (line 106) or in the call
`server.Serve(cf, rootCtx, checks)` (line 108). -/
inductive MainEnd (X U C K : Type) where
  | logFatalf (format : String)
  | oneShotVersion (checks : List (Option K))
  | Serve (cf : Config X U C) (checks : List (Option K))
deriving DecidableEq, Repr

/-- One run of `main`: the constructor calls it made, in order, and its end. -/
structure MainRun (X U C K : Type) where
  calls : List (Nat × CtorName)
  ending : MainEnd X U C K
deriving DecidableEq, Repr

/-- The function `main` (lines 43-110). `parsed` is the result of
`config.ParseConfigFile(*configFile)`, `oneShot` the value of the flag
`--one-shot`. Logging (lines 46-48, 55-70) and the signal handler
(lines 93-103) are left out. -/
def main {X U C K : Type} (cs : Constructors X U C K)
    (parsed : Except String (Config X U C)) (oneShot : Bool) : MainRun X U C K :=
  match parsed with
  | .error m => { calls := [], ending := .logFatalf m }
  | .ok cf =>
    match buildLoop cs cf.Checks 0 { checks := [], calls := [] } with
    | (b, some m) => { calls := b.calls, ending := .logFatalf m }
    | (b, none) =>
      if oneShot then { calls := b.calls, ending := .oneShotVersion b.checks }
      else { calls := b.calls, ending := .Serve cf b.checks }

/-- An instance of the constructors, for the examples: every constructor
refuses a timeout that is not positive and otherwise returns a checker whose
`Run` sends one healthy result. -/
def exampleConstructors : Constructors String String (List Nat) (List (ResultPtr String)) where
  NewShellChecker := fun t exec =>
    if t ≤ 0 then (none, some "timeout") else (some [some ⟨true, exec⟩], none)
  NewCommandChecker := fun t exec =>
    if t ≤ 0 then (none, some "timeout") else (some [some ⟨true, exec⟩], none)
  NewNetworkChecker := fun t url _ =>
    if t ≤ 0 then (none, some "timeout") else (some [some ⟨true, url⟩], none)

/-! ## The fan-in loop on a given sequence of received values -/

/-- The loop from any point: the locals hold `pre` in the first `i` slots and
nil in the remaining ones, and the receives still to come return `rs`. -/
theorem foldlM_body_from {D : Type} (rs : List (CheckResult D)) :
    ∀ (pre : List (ResultPtr D)) (e : Nat),
      List.foldlM FanIn.body
          ({ i := pre.length, exitCode := e,
             results := pre ++ List.replicate rs.length none } : FanIn D)
          (rs.map some)
        = some { i := pre.length + rs.length
                 exitCode := if rs.any (fun r => r.Ok) then 2 else e
                 results := pre ++ rs.map some } := by
  induction rs with
  | nil => intro pre e; simp
  | cons r rs ih =>
    intro pre e
    have hset : (pre ++ List.replicate (rs.length + 1) (none : ResultPtr D)).set pre.length (some r)
        = (pre ++ [some r]) ++ List.replicate rs.length none := by
      simp [List.set_append, List.replicate_succ]
    have h := ih (pre ++ [some r]) (if r.Ok then 2 else e)
    simp only [List.length_append, List.length_singleton] at h
    simp only [List.map_cons, List.foldlM_cons, FanIn.body, List.length_cons, hset]
    simp only [Option.bind_eq_bind, Option.some_bind, h]
    by_cases hr : r.Ok = true <;> simp [hr, Nat.add_assoc, Nat.add_comm 1]

/-- The loop on non-nil results: it ends without a panic, with `i = N`, the
exit code 2 exactly when some result has `Ok`, and the results in the order
received. -/
theorem fanIn_map_some {D : Type} (rs : List (CheckResult D)) :
    fanIn (rs.map some)
      = some { i := rs.length
               exitCode := if rs.any (fun r => r.Ok) then 2 else 0
               results := rs.map some } := by
  have h := foldlM_body_from rs [] 0
  simpa [fanIn, FanIn.start] using h

/-- The run of lines 119-135 on non-nil results. -/
theorem oneShotReceived_map_some {D : Type}
    (Serialize : List (ResultPtr D) → Bool → Except String String)
    (rs : List (CheckResult D)) :
    oneShotReceived Serialize (rs.map some)
      = oneShotTail Serialize
          { i := rs.length
            exitCode := if rs.any (fun r => r.Ok) then 2 else 0
            results := rs.map some } := by
  simp [oneShotReceived, fanIn_map_some]

/-- Whether some outcome has `Ok` does not depend on the order of the list. -/
theorem any_ok_perm {D : Type} {rs₁ rs₂ : List (CheckResult D)} (h : rs₁.Perm rs₂) :
    rs₁.any (fun r => r.Ok) = rs₂.any (fun r => r.Ok) := by
  rw [Bool.eq_iff_iff]
  simp only [List.any_eq_true]
  constructor
  · rintro ⟨x, hx, hok⟩; exact ⟨x, h.mem_iff.mp hx, hok⟩
  · rintro ⟨x, hx, hok⟩; exact ⟨x, h.mem_iff.mpr hx, hok⟩

/-- The value `if any Ok then 2 else 0` is 2 exactly when some outcome has
`Ok`, 0 exactly when none has, and nothing else. -/
theorem exit_code_cases {D : Type} (rs : List (CheckResult D)) :
    ((if rs.any (fun r => r.Ok) then 2 else 0) = 2 ↔ ∃ r ∈ rs, r.Ok = true) ∧
    ((if rs.any (fun r => r.Ok) then 2 else 0) = 0 ↔ ∀ r ∈ rs, r.Ok = false) ∧
    ((if rs.any (fun r => r.Ok) then 2 else 0) = 0 ∨
      (if rs.any (fun r => r.Ok) then 2 else 0) = 2) := by
  cases hany : rs.any (fun r => r.Ok)
  · have hall : ∀ r ∈ rs, r.Ok = false := by
      intro r hr
      cases hok : r.Ok
      · rfl
      · have : rs.any (fun r => r.Ok) = true := List.any_eq_true.mpr ⟨r, hr, hok⟩
        rw [hany] at this
        exact absurd this (by decide)
    refine ⟨?_, ?_, ?_⟩
    · constructor
      · intro h; simp at h
      · rintro ⟨r, hr, hok⟩
        rw [hall r hr] at hok
        exact absurd hok (by decide)
    · constructor
      · intro _; exact hall
      · intro _; simp
    · left; simp
  · obtain ⟨r, hr, hok⟩ := List.any_eq_true.mp hany
    refine ⟨?_, ?_, ?_⟩
    · constructor
      · intro _; exact ⟨r, hr, hok⟩
      · intro _; simp
    · constructor
      · intro h; simp at h
      · intro hall
        rw [hall r hr] at hok
        exact absurd hok (by decide)
    · right; simp

/-! ## The exit code of the one-shot runner -/

/-- C1, evaluated on the code: the loop of `oneShotVersion` gives the exit
code 2 both to the all-healthy list `[Ok]` and to the list `[Ok, not Ok]` that
holds an unhealthy outcome, and the exit code 0 both to the all-healthy empty
list and to the list `[not Ok]`: the exit code does not tell the two apart. -/
theorem fanIn_exit_code_does_not_separate_health :
    (fanIn [some (⟨true, ()⟩ : CheckResult Unit)]).map (fun l => l.exitCode) = some 2 ∧
    (fanIn [some (⟨true, ()⟩ : CheckResult Unit), some ⟨false, ()⟩]).map
        (fun l => l.exitCode) = some 2 ∧
    (fanIn ([] : List (ResultPtr Unit))).map (fun l => l.exitCode) = some 0 ∧
    (fanIn [some (⟨false, ()⟩ : CheckResult Unit)]).map (fun l => l.exitCode) = some 0 := by
  decide

/-- C2: when serialization of the received results succeeds, `oneShotVersion`
ends in `os.Exit(c)` where `c = 2` exactly when at least one received outcome
has `Ok = true` and `c = 0` exactly when none has; `c` is 0 or 2. -/
theorem exit_code_two_iff_some_ok {D : Type}
    (Serialize : List (ResultPtr D) → Bool → Except String String)
    (rs : List (CheckResult D)) (doc : String)
    (hser : Serialize (rs.map some) true = .ok doc) :
    ∃ c, (oneShotReceived Serialize (rs.map some)).termination = .osExit c ∧
      (c = 2 ↔ ∃ r ∈ rs, r.Ok = true) ∧
      (c = 0 ↔ ∀ r ∈ rs, r.Ok = false) ∧
      (c = 0 ∨ c = 2) := by
  obtain ⟨h2, h0, h02⟩ := exit_code_cases rs
  exact ⟨if rs.any (fun r => r.Ok) then 2 else 0,
    by simp [oneShotReceived_map_some, oneShotTail, hser], h2, h0, h02⟩

/-- Witness of C2: one healthy outcome, serialized to `"[]"`: exit code 2. -/
theorem exit_code_two_iff_some_ok_witness :
    ∃ c, (oneShotReceived (fun _ _ => Except.ok "[]")
            ([(⟨true, ()⟩ : CheckResult Unit)].map some)).termination = .osExit c ∧
      (c = 2 ↔ ∃ r ∈ [(⟨true, ()⟩ : CheckResult Unit)], r.Ok = true) ∧
      (c = 0 ↔ ∀ r ∈ [(⟨true, ()⟩ : CheckResult Unit)], r.Ok = false) ∧
      (c = 0 ∨ c = 2) :=
  exit_code_two_iff_some_ok (fun _ _ => Except.ok "[]") [⟨true, ()⟩] "[]" rfl

/-- C7: on every list of received results, if `Serialize` returns an error
then nothing is written to standard output and the process ends in
`log.Fatalf`, with exit status 1; if `Serialize` returns a document then
standard output holds exactly the document followed by a newline and the
process ends in `os.Exit(c)` with `c` equal to 0 or 2, hence never 1. -/
theorem serialize_failure_is_fatal {D : Type}
    (Serialize : List (ResultPtr D) → Bool → Except String String)
    (rs : List (CheckResult D)) :
    (∀ e, Serialize (rs.map some) true = .error e →
      (oneShotReceived Serialize (rs.map some)).stdout = "" ∧
      (oneShotReceived Serialize (rs.map some)).termination
        = .logFatalf ("Cannot serialize to JSON: " ++ e) ∧
      (oneShotReceived Serialize (rs.map some)).termination.exitStatus = some 1) ∧
    (∀ doc, Serialize (rs.map some) true = .ok doc →
      (oneShotReceived Serialize (rs.map some)).stdout = doc ++ "\n" ∧
      ∃ c, (oneShotReceived Serialize (rs.map some)).termination = .osExit c ∧
        (oneShotReceived Serialize (rs.map some)).termination.exitStatus = some c ∧
        (c = 0 ∨ c = 2) ∧ c ≠ 1) := by
  constructor
  · intro e he
    simp [oneShotReceived_map_some, oneShotTail, he, Termination.exitStatus]
  · intro doc hdoc
    refine ⟨by simp [oneShotReceived_map_some, oneShotTail, hdoc],
      if rs.any (fun r => r.Ok) then 2 else 0, ?_, ?_, ?_, ?_⟩
    · simp [oneShotReceived_map_some, oneShotTail, hdoc]
    · simp [oneShotReceived_map_some, oneShotTail, hdoc, Termination.exitStatus]
    · exact (exit_code_cases rs).2.2
    · rcases (exit_code_cases rs).2.2 with h | h <;> rw [h] <;> decide

/-- Witness of C7: a serializer that fails on the empty list and succeeds on
any other, run on one healthy outcome and, for the failure, on no outcome. -/
theorem serialize_failure_is_fatal_witness :
    ((oneShotReceived
        (fun (l : List (ResultPtr Unit)) _ => if l = [] then Except.error "empty" else Except.ok "[1]")
        (([] : List (CheckResult Unit)).map some)).stdout = "" ∧
     (oneShotReceived
        (fun (l : List (ResultPtr Unit)) _ => if l = [] then Except.error "empty" else Except.ok "[1]")
        (([] : List (CheckResult Unit)).map some)).termination.exitStatus = some 1) ∧
    (oneShotReceived
        (fun (l : List (ResultPtr Unit)) _ => if l = [] then Except.error "empty" else Except.ok "[1]")
        ([(⟨true, ()⟩ : CheckResult Unit)].map some)).stdout = "[1]" ++ "\n" :=
  ⟨⟨((serialize_failure_is_fatal _ []).1 "empty" rfl).1,
    ((serialize_failure_is_fatal _ []).1 "empty" rfl).2.2⟩,
   ((serialize_failure_is_fatal _ [⟨true, ()⟩]).2 "[1]" rfl).1⟩

/-- C8, evaluated on the code: with no checker `oneShotVersion` exits with
code 0, while a cycle of one checker that reports itself healthy exits with
code 2: the empty probe set does not get the exit code of an all-healthy
cycle. -/
theorem empty_probe_set_exit_code_differs_from_all_healthy :
    oneShotVersion (fun (_ : List (ResultPtr Unit)) _ => Except.ok "[]") [] []
      = some { stdout := "[]\n", termination := .osExit 0 } ∧
    oneShotVersion (fun (_ : List (ResultPtr Unit)) _ => Except.ok "[]")
        [some [some ⟨true, ()⟩]] [.send 0, .recv]
      = some { stdout := "[]\n", termination := .osExit 2 } := by
  decide

/-- C10: the exit code computed by the fan-in loop is the same for a list of
received outcomes and for every permutation of it. -/
theorem exit_code_independent_of_arrival_order {D : Type}
    (rs₁ rs₂ : List (CheckResult D)) (h : rs₁.Perm rs₂) :
    ∃ c, (fanIn (rs₁.map some)).map (fun l => l.exitCode) = some c ∧
      (fanIn (rs₂.map some)).map (fun l => l.exitCode) = some c := by
  refine ⟨if rs₁.any (fun r => r.Ok) then 2 else 0, ?_, ?_⟩
  · simp [fanIn_map_some]
  · simp [fanIn_map_some, any_ok_perm h]

/-- Witness of C10: a healthy and an unhealthy outcome in both orders. -/
theorem exit_code_independent_of_arrival_order_witness :
    ∃ c, (fanIn ([(⟨true, 1⟩ : CheckResult Nat), ⟨false, 2⟩].map some)).map
          (fun l => l.exitCode) = some c ∧
      (fanIn ([(⟨false, 2⟩ : CheckResult Nat), ⟨true, 1⟩].map some)).map
          (fun l => l.exitCode) = some c :=
  exit_code_independent_of_arrival_order _ _ (List.Perm.swap _ _ [])

/-! ## Runs of the goroutines and the channel -/

theorem run_append {D : Type} (n : Nat) (as bs : List Action) :
    ∀ s : State D, run n s (as ++ bs) = (run n s as).bind (fun t => run n t bs) := by
  induction as with
  | nil => intro s; simp [run]
  | cons a as ih =>
    intro s
    simp only [List.cons_append, run]
    cases h : step n s a with
    | none => simp
    | some t => simp [ih]

/-- Taking the head `v` off the `k`-th list permutes the concatenation. -/
theorem flatten_set_perm {α : Type} :
    ∀ (gs : List (List α)) (k : Nat) (v : α) (rest : List α),
      gs[k]? = some (v :: rest) → gs.flatten.Perm (v :: (gs.set k rest).flatten) := by
  intro gs
  induction gs with
  | nil => intro k v rest h; simp at h
  | cons g gs ih =>
    intro k v rest h
    cases k with
    | zero =>
      simp only [List.getElem?_cons_zero, Option.some.injEq] at h
      subst h
      simp
    | succ k =>
      simp only [List.getElem?_cons_succ] at h
      have := ih k v rest h
      simp only [List.set_cons_succ, List.flatten_cons]
      exact (List.Perm.append_left g this).trans List.perm_middle

theorem take_set_succ {α : Type} (v : α) :
    ∀ (l : List α) (i : Nat), i < l.length → (l.set i v).take (i + 1) = l.take i ++ [v] := by
  intro l
  induction l with
  | nil => intro i h; simp at h
  | cons x l ih =>
    intro i h
    cases i with
    | zero => simp
    | succ i =>
      simp only [List.length_cons, Nat.add_lt_add_iff_right] at h
      simp [ih i h]

/-- A non-empty concatenation has a non-empty component. -/
theorem exists_head_of_flatten_ne_nil {α : Type} :
    ∀ gs : List (List α), gs.flatten ≠ [] →
      ∃ (k : Nat) (v : α) (rest : List α), gs[k]? = some (v :: rest) := by
  intro gs
  induction gs with
  | nil => intro h; simp at h
  | cons g gs ih =>
    intro h
    cases g with
    | nil =>
      simp only [List.flatten_cons, List.nil_append] at h
      obtain ⟨k, v, rest, hk⟩ := ih h
      exact ⟨k + 1, v, rest, by simpa using hk⟩
    | cons v rest => exact ⟨0, v, rest, by simp⟩

theorem inv_init {D : Type} (n : Nat) (gs : List (List (ResultPtr D))) :
    Inv n gs (State.init gs n) := by
  refine ⟨by simp [State.init], fun _ => ?_⟩
  simp [State.init, FanIn.start]

/-- A step is taken only from a state that has not panicked. -/
theorem step_not_panicked {D : Type} {n : Nat} {s t : State D} {a : Action}
    (h : step n s a = some t) : s.panicked = false := by
  cases hp : s.panicked with
  | false => rfl
  | true => cases a <;> simp [step, hp] at h

theorem inv_step {D : Type} {n : Nat} {gs : List (List (ResultPtr D))} {s t : State D}
    {a : Action} (hinv : Inv n gs s) (h : step n s a = some t) : Inv n gs t := by
  have hp := step_not_panicked h
  obtain ⟨hperm, hrest⟩ := hinv
  obtain ⟨hlen, hi, hsent, hfold⟩ := hrest hp
  cases a with
  | send k =>
    simp only [step, hp, Bool.false_eq_true, if_false] at h
    split at h
    · rename_i v rest hk
      split at h
      · simp only [Option.some.injEq] at h
        subst h
        refine ⟨?_, fun _ => ⟨hlen, hi, ?_, hfold⟩⟩
        · have h1 := flatten_set_perm s.goroutines k v rest hk
          have h2 : (s.sent ++ [v] ++ (s.goroutines.set k rest).flatten).Perm
              (s.sent ++ s.goroutines.flatten) := by
            rw [List.append_assoc]
            exact List.Perm.append_left s.sent h1.symm
          exact h2.trans hperm
        · simp [hsent]
      · simp at h
    · simp at h
  | recv =>
    simp only [step, hp, Bool.false_eq_true, if_false] at h
    split at h
    · rename_i hlt
      split at h
      · simp at h
      · rename_i v rest hch
        cases v with
        | none =>
          simp only [FanIn.body, Option.some.injEq] at h
          subst h
          exact ⟨hperm, fun hc => by simp at hc⟩
        | some r =>
          simp only [FanIn.body, Option.some.injEq] at h
          subst h
          have hlt2 : s.loop.i < s.loop.results.length := by omega
          refine ⟨hperm, fun _ => ⟨by simp [hlen], by simp; omega, ?_, ?_⟩⟩
          · simp only [take_set_succ (some r) _ _ hlt2, hsent, hch]
            simp
          · simp only [take_set_succ (some r) _ _ hlt2, List.foldlM_append, hfold]
            simp [FanIn.body]
    · simp at h

theorem inv_run {D : Type} {n : Nat} {gs : List (List (ResultPtr D))} :
    ∀ (sched : List Action) (s t : State D),
      Inv n gs s → run n s sched = some t → Inv n gs t := by
  intro sched
  induction sched with
  | nil => intro s t hinv h; simp only [run, Option.some.injEq] at h; exact h ▸ hinv
  | cons a as ih =>
    intro s t hinv h
    simp only [run] at h
    cases hs : step n s a with
    | none => simp [hs] at h
    | some u =>
      simp only [hs] at h
      exact ih u t (inv_step hinv hs) h

/-- Every step uses up one unit of `2 * (values still to send) + (values in
the channel)`. -/
theorem step_measure {D : Type} {n : Nat} {s t : State D} {a : Action}
    (h : step n s a = some t) :
    2 * t.goroutines.flatten.length + t.channel.length + 1
      = 2 * s.goroutines.flatten.length + s.channel.length := by
  have hp := step_not_panicked h
  cases a with
  | send k =>
    simp only [step, hp, Bool.false_eq_true, if_false] at h
    split at h
    · rename_i v rest hk
      split at h
      · simp only [Option.some.injEq] at h
        subst h
        have h1 := (flatten_set_perm s.goroutines k v rest hk).length_eq
        simp only [List.length_cons] at h1
        simp only [List.length_append, List.length_singleton]
        omega
      · simp at h
    · simp at h
  | recv =>
    simp only [step, hp, Bool.false_eq_true, if_false] at h
    split at h
    · split at h
      · simp at h
      · rename_i v rest hch
        split at h <;>
          (simp only [Option.some.injEq] at h; subst h; simp only [hch, List.length_cons]; omega)
    · simp at h

theorem run_measure {D : Type} {n : Nat} :
    ∀ (sched : List Action) (s t : State D), run n s sched = some t →
      sched.length + (2 * t.goroutines.flatten.length + t.channel.length)
        = 2 * s.goroutines.flatten.length + s.channel.length := by
  intro sched
  induction sched with
  | nil => intro s t h; simp only [run, Option.some.injEq] at h; subst h; simp
  | cons a as ih =>
    intro s t h
    simp only [run] at h
    cases hs : step n s a with
    | none => simp [hs] at h
    | some u =>
      simp only [hs] at h
      have h1 := ih u t h
      have h2 := step_measure hs
      simp only [List.length_cons]
      omega

/-- When no goroutine sends a nil pointer, a step never ends in a panic. -/
theorem step_no_panic {D : Type} {n : Nat} {gs : List (List (ResultPtr D))} {s t : State D}
    {a : Action} (hinv : Inv n gs s) (hnn : ∀ v ∈ gs.flatten, v ≠ none)
    (h : step n s a = some t) : t.panicked = false := by
  have hp := step_not_panicked h
  obtain ⟨hperm, hrest⟩ := hinv
  obtain ⟨_, _, hsent, _⟩ := hrest hp
  cases a with
  | send k =>
    simp only [step, hp, Bool.false_eq_true, if_false] at h
    split at h
    · split at h
      · simp only [Option.some.injEq] at h
        subst h
        first | exact hp | rfl
      · simp at h
    · simp at h
  | recv =>
    simp only [step, hp, Bool.false_eq_true, if_false] at h
    split at h
    · split at h
      · simp at h
      · rename_i v rest hch
        cases v with
        | none =>
          have hmem : (none : ResultPtr D) ∈ gs.flatten := by
            apply hperm.subset
            rw [hsent, hch]
            simp
          exact absurd rfl (hnn none hmem)
        | some r =>
          simp only [FanIn.body, Option.some.injEq] at h
          subst h
          first | exact hp | rfl
    · simp at h

theorem run_no_panic {D : Type} {n : Nat} {gs : List (List (ResultPtr D))}
    (hnn : ∀ v ∈ gs.flatten, v ≠ none) :
    ∀ (sched : List Action) (s t : State D), Inv n gs s → s.panicked = false →
      run n s sched = some t → t.panicked = false := by
  intro sched
  induction sched with
  | nil => intro s t _ hp h; simp only [run, Option.some.injEq] at h; subst h; exact hp
  | cons a as ih =>
    intro s t hinv _ h
    simp only [run] at h
    cases hs : step n s a with
    | none => simp [hs] at h
    | some u =>
      simp only [hs] at h
      exact ih u t (inv_step hinv hs) (step_no_panic hinv hnn hs) h

/-- No deadlock: as long as the loop has receives left, either the channel
holds a value to receive or some goroutine has its value still to send. -/
theorem progress {D : Type} {n : Nat} {gs : List (List (ResultPtr D))} {s : State D}
    (hinv : Inv n gs s) (htot : gs.flatten.length = n) (hp : s.panicked = false)
    (hi : s.loop.i < n) : ∃ a t, step n s a = some t := by
  obtain ⟨hperm, hrest⟩ := hinv
  obtain ⟨hlen, _, hsent, _⟩ := hrest hp
  cases hch : s.channel with
  | cons v rest =>
    refine ⟨.recv, ?_⟩
    simp only [step, hp, Bool.false_eq_true, if_false, hi, if_true, hch]
    cases hb : s.loop.body v <;> simp
  | nil =>
    have hl := hperm.length_eq
    rw [hsent, hch] at hl
    simp only [List.append_nil, List.length_append, List.length_take] at hl
    have hne : s.goroutines.flatten ≠ [] := by
      intro h0
      rw [h0] at hl
      simp only [List.length_nil] at hl
      omega
    obtain ⟨k, v, rest, hk⟩ := exists_head_of_flatten_ne_nil s.goroutines hne
    refine ⟨.send k, ?_⟩
    have h0 : 0 < n := by omega
    simp [step, hp, hk, hch, h0]

/-- Every run in which each goroutine sends non-nil values, `n` in all, can be
continued until the loop has finished. -/
theorem exists_completion {D : Type} {n : Nat} {gs : List (List (ResultPtr D))}
    (htot : gs.flatten.length = n) (hnn : ∀ v ∈ gs.flatten, v ≠ none) :
    ∀ (m : Nat) (s : State D), Inv n gs s → s.panicked = false →
      2 * s.goroutines.flatten.length + s.channel.length ≤ m →
      ∃ ext t, run n s ext = some t ∧ t.panicked = false ∧ t.loop.i = n := by
  intro m
  induction m with
  | zero =>
    intro s hinv hp hm
    by_cases hi : s.loop.i < n
    · obtain ⟨a, t, ht⟩ := progress hinv htot hp hi
      have := step_measure ht
      omega
    · have := (hinv.2 hp).2.1
      exact ⟨[], s, rfl, hp, by omega⟩
  | succ m ih =>
    intro s hinv hp hm
    by_cases hi : s.loop.i < n
    · obtain ⟨a, t, ht⟩ := progress hinv htot hp hi
      have hmt := step_measure ht
      obtain ⟨ext, u, hu, hup, hui⟩ :=
        ih t (inv_step hinv ht) (step_no_panic hinv hnn ht) (by omega)
      exact ⟨a :: ext, u, by simp [run, ht, hu], hup, hui⟩
    · have := (hinv.2 hp).2.1
      exact ⟨[], s, rfl, hp, by omega⟩

/-- When the loop has finished and the goroutines send `n` values in all, the
channel is empty and `results` is the sequence of values sent, in send order. -/
theorem results_at_completion {D : Type} {n : Nat} {gs : List (List (ResultPtr D))}
    {s : State D} (hinv : Inv n gs s) (htot : gs.flatten.length = n)
    (hp : s.panicked = false) (hi : s.loop.i = n) :
    s.loop.results.length = n ∧ s.loop.results = s.sent ∧
      s.loop.results.Perm gs.flatten := by
  obtain ⟨hperm, hrest⟩ := hinv
  obtain ⟨hlen, _, hsent, _⟩ := hrest hp
  have htake : s.loop.results.take s.loop.i = s.loop.results := by
    rw [hi, ← hlen, List.take_length]
  rw [htake] at hsent
  have hl := hperm.length_eq
  rw [hsent] at hl
  simp only [List.length_append] at hl
  have hch : s.channel = [] := List.eq_nil_of_length_eq_zero (by omega)
  have hgo : s.goroutines.flatten = [] := List.eq_nil_of_length_eq_zero (by omega)
  rw [hch, List.append_nil] at hsent
  refine ⟨hlen, hsent.symm, ?_⟩
  rw [hgo, List.append_nil, hsent] at hperm
  exact hperm

/-- Checkers that are non-nil and each send one non-nil result: all goroutines
are started and they send `len(checks)` non-nil values, those of `sentBy`. -/
theorem spawn_of_single {D : Type} :
    ∀ checks : List (Checker D), (∀ c ∈ checks, ∃ r, c = some [some r]) →
      ∃ gs, spawn checks = some gs ∧ gs.flatten = sentBy checks ∧
        gs.flatten.length = checks.length ∧ ∀ v ∈ gs.flatten, v ≠ none := by
  intro checks
  induction checks with
  | nil => intro _; exact ⟨[], rfl, rfl, rfl, by simp⟩
  | cons c cs ih =>
    intro hpre
    obtain ⟨r, hr⟩ := hpre c (by simp)
    obtain ⟨gs, hgs, hfl, hlen, hnn⟩ := ih (fun c hc => hpre c (by simp [hc]))
    subst hr
    refine ⟨[some r] :: gs, by simp [spawn, hgs], ?_, ?_, ?_⟩
    · simp only [sentBy] at hfl
      simp [sentBy, hfl]
    · simp [hlen]
    · intro v hv
      simp only [List.flatten_cons, List.singleton_append, List.mem_cons] at hv
      rcases hv with hv | hv
      · simp [hv]
      · exact hnn v hv

/-! ## One cycle of the one-shot runner -/

/-- C3: when every checker is non-nil and its `Run` sends exactly one non-nil
result, one cycle of `oneShotVersion` never panics; whenever the loop has
finished, the list `results` has exactly `len(checks)` entries, is a
permutation of the outcomes the probes sent (each once, none dropped, none
duplicated), and is the very list `oneShotVersion` hands to `Serialize`: for
every serializer, the run ends as `Serialize results true` decides, in
`log.Fatalf` on an error and with the document on standard output otherwise.
The loop does finish: a run has at most `2 * len(checks)` steps and every run
can be continued to the end of the loop. Conversely every result of
`oneShotVersion` is the one the serializer gives on such a list. -/
theorem one_cycle_collects_every_outcome {D : Type} (checks : List (Checker D))
    (hpre : ∀ c ∈ checks, ∃ r, c = some [some r]) :
    (∀ sched, oneShotLoop checks sched ≠ some none) ∧
    (∀ sched l, oneShotLoop checks sched = some (some l) →
      l.results.length = checks.length ∧ l.results.Perm (sentBy checks) ∧
      ∀ Serialize : List (ResultPtr D) → Bool → Except String String,
        (∀ e, Serialize l.results true = .error e →
          oneShotVersion Serialize checks sched
            = some { stdout := ""
                     termination := .logFatalf ("Cannot serialize to JSON: " ++ e) }) ∧
        (∀ doc, Serialize l.results true = .ok doc →
          oneShotVersion Serialize checks sched
            = some { stdout := doc ++ "\n", termination := .osExit l.exitCode })) ∧
    (∀ sched, schedulable checks sched = true →
      sched.length ≤ 2 * checks.length ∧
      ∃ ext l, oneShotLoop checks (sched ++ ext) = some (some l)) ∧
    (∀ (Serialize : List (ResultPtr D) → Bool → Except String String) sched res,
      oneShotVersion Serialize checks sched = some res →
      ∃ (results : List (ResultPtr D)) (c : Nat),
        results.length = checks.length ∧ results.Perm (sentBy checks) ∧
        (∀ e, Serialize results true = .error e →
          res = { stdout := ""
                  termination := .logFatalf ("Cannot serialize to JSON: " ++ e) }) ∧
        (∀ doc, Serialize results true = .ok doc →
          res = { stdout := doc ++ "\n", termination := .osExit c })) := by
  obtain ⟨gs, hgs, hfl, hlen, hnn⟩ := spawn_of_single checks hpre
  have hinit := inv_init checks.length gs
  have hnopanic : ∀ sched, oneShotLoop checks sched ≠ some none := by
    intro sched
    simp only [oneShotLoop, hgs]
    cases hr : run checks.length (State.init gs checks.length) sched with
    | none => simp
    | some s =>
      have hp := run_no_panic hnn sched _ s hinit rfl hr
      simp only [hp, Bool.false_eq_true, if_false]
      split <;> simp
  have hres : ∀ sched l, oneShotLoop checks sched = some (some l) →
      l.results.length = checks.length ∧ l.results.Perm (sentBy checks) := by
    intro sched l hl
    simp only [oneShotLoop, hgs] at hl
    cases hr : run checks.length (State.init gs checks.length) sched with
    | none => simp [hr] at hl
    | some s =>
      have hp := run_no_panic hnn sched _ s hinit rfl hr
      simp only [hr, hp, Bool.false_eq_true, if_false] at hl
      split at hl
      · rename_i hi
        simp only [Option.some.injEq] at hl
        subst hl
        obtain ⟨h1, _, h3⟩ := results_at_completion (inv_run sched _ s hinit hr) hlen hp hi
        exact ⟨h1, hfl ▸ h3⟩
      · simp at hl
  refine ⟨hnopanic, ?_, ?_, ?_⟩
  · intro sched l hl
    refine ⟨(hres sched l hl).1, (hres sched l hl).2, fun Serialize => ⟨?_, ?_⟩⟩
    · intro e he
      simp [oneShotVersion, hl, oneShotTail, he]
    · intro doc hdoc
      simp [oneShotVersion, hl, oneShotTail, hdoc]
  · intro sched hs
    simp only [schedulable, hgs] at hs
    cases hr : run checks.length (State.init gs checks.length) sched with
    | none => simp [hr] at hs
    | some s =>
      have hp := run_no_panic hnn sched _ s hinit rfl hr
      have hinv := inv_run sched _ s hinit hr
      have hm := run_measure sched _ s hr
      constructor
      · simp only [State.init, List.length_nil, hlen] at hm
        omega
      · obtain ⟨ext, t, ht, htp, hti⟩ := exists_completion hlen hnn _ s hinv hp (Nat.le_refl _)
        refine ⟨ext, t.loop, ?_⟩
        simp [oneShotLoop, hgs, run_append, hr, ht, htp, hti]
  · intro Serialize sched res hv
    cases hl : oneShotLoop checks sched with
    | none => simp [oneShotVersion, hl] at hv
    | some o =>
      cases o with
      | none => exact absurd hl (hnopanic sched)
      | some l =>
        simp only [oneShotVersion, hl, Option.some.injEq] at hv
        subst hv
        refine ⟨l.results, l.exitCode, (hres sched l hl).1, (hres sched l hl).2, ?_, ?_⟩
        · intro e he
          simp [oneShotTail, he]
        · intro doc hdoc
          simp [oneShotTail, hdoc]

/-- Witness of C3: two checkers; the schedule in which the second sends first
does not panic; a serializer that tells the length of the list it is given
reports two entries on it; and the empty schedule can be continued to the
end. -/
theorem one_cycle_collects_every_outcome_witness :
    (∀ c ∈ [some [some (⟨true, 1⟩ : CheckResult Nat)], some [some ⟨false, 2⟩]],
      ∃ r, c = some [some r]) ∧
    oneShotLoop [some [some (⟨true, 1⟩ : CheckResult Nat)], some [some ⟨false, 2⟩]]
      [.send 1, .send 0, .recv, .recv] ≠ some none ∧
    oneShotVersion
      (fun (l : List (ResultPtr Nat)) _ =>
        if l.length = 2 then Except.ok "two" else Except.error "not two")
      [some [some (⟨true, 1⟩ : CheckResult Nat)], some [some ⟨false, 2⟩]]
      [.send 1, .send 0, .recv, .recv]
      = some { stdout := "two" ++ "\n", termination := .osExit 2 } ∧
    ∃ ext l, oneShotLoop [some [some (⟨true, 1⟩ : CheckResult Nat)], some [some ⟨false, 2⟩]]
      ([] ++ ext) = some (some l) :=
  have hpre : ∀ c ∈ [some [some (⟨true, 1⟩ : CheckResult Nat)], some [some ⟨false, 2⟩]],
      ∃ r, c = some [some r] := by
    intro c hc
    simp only [List.mem_cons, List.mem_singleton, List.not_mem_nil, or_false] at hc
    rcases hc with rfl | rfl <;> exact ⟨_, rfl⟩
  ⟨hpre, (one_cycle_collects_every_outcome _ hpre).1 _,
    (((one_cycle_collects_every_outcome _ hpre).2.1 [.send 1, .send 0, .recv, .recv]
      { i := 2, exitCode := 2, results := [some ⟨false, 2⟩, some ⟨true, 1⟩] }
      (by decide)).2.2 _).2 "two" rfl,
    ((one_cycle_collects_every_outcome _ hpre).2.2.1 [] (by decide)).2⟩

/-- C4 as stated fails: with two checkers whose outcomes arrive in the order
second, first, entry 0 of the result list is the outcome of the second
configured checker, not of the first. -/
theorem result_order_is_not_configured_order :
    ∃ l, oneShotLoop [some [some (⟨true, 1⟩ : CheckResult Nat)], some [some ⟨false, 2⟩]]
          [.send 1, .send 0, .recv, .recv] = some (some l) ∧
      l.results[0]? = some (some ⟨false, 2⟩) ∧
      (sentBy [some [some (⟨true, 1⟩ : CheckResult Nat)], some [some ⟨false, 2⟩]])[0]?
        = some (some ⟨true, 1⟩) ∧
      l.results ≠ sentBy [some [some (⟨true, 1⟩ : CheckResult Nat)], some [some ⟨false, 2⟩]] :=
  ⟨{ i := 2, exitCode := 2, results := [some ⟨false, 2⟩, some ⟨true, 1⟩] },
    by decide, by decide, by decide, by decide⟩

/-- C4, amended: when every checker is non-nil and its `Run` sends exactly one
non-nil result, the result list handed to the serializer is the sequence of
outcomes in the order they were sent on the channel: entry `i` is the `i`-th
outcome to arrive. It is in configured order exactly when the outcomes arrive
in configured order. -/
theorem result_order_is_arrival_order {D : Type} (checks : List (Checker D))
    (hpre : ∀ c ∈ checks, ∃ r, c = some [some r])
    (sched : List Action) (l : FanIn D)
    (hl : oneShotLoop checks sched = some (some l)) :
    l.results = arrivals checks sched ∧
    (∀ i : Nat, l.results[i]? = (arrivals checks sched)[i]?) ∧
    (l.results = sentBy checks ↔ arrivals checks sched = sentBy checks) := by
  obtain ⟨gs, hgs, _, hlen, hnn⟩ := spawn_of_single checks hpre
  have hinit := inv_init checks.length gs
  have key : l.results = arrivals checks sched := by
    simp only [oneShotLoop, hgs] at hl
    simp only [arrivals, hgs]
    cases hr : run checks.length (State.init gs checks.length) sched with
    | none => simp [hr] at hl
    | some s =>
      have hp := run_no_panic hnn sched _ s hinit rfl hr
      simp only [hr, hp, Bool.false_eq_true, if_false] at hl
      split at hl
      · rename_i hi
        simp only [Option.some.injEq] at hl
        subst hl
        exact (results_at_completion (inv_run sched _ s hinit hr) hlen hp hi).2.1
      · simp at hl
  exact ⟨key, fun i => by rw [key], by rw [key]⟩

/-- Witness of C4, amended: two checkers, the second sends first. -/
theorem result_order_is_arrival_order_witness :
    ([some ⟨false, 2⟩, some ⟨true, 1⟩] : List (ResultPtr Nat))
      = arrivals [some [some (⟨true, 1⟩ : CheckResult Nat)], some [some ⟨false, 2⟩]]
          [.send 1, .send 0, .recv, .recv] :=
  (result_order_is_arrival_order
    [some [some (⟨true, 1⟩ : CheckResult Nat)], some [some ⟨false, 2⟩]]
    (by
      intro c hc
      simp only [List.mem_cons, List.mem_singleton, List.not_mem_nil, or_false] at hc
      rcases hc with rfl | rfl <;> exact ⟨_, rfl⟩)
    [.send 1, .send 0, .recv, .recv]
    { i := 2, exitCode := 2, results := [some ⟨false, 2⟩, some ⟨true, 1⟩] }
    (by decide)).1

/-! ## `main`: the construction loop -/

/-- When no constructor returns an error the loop runs to its end and appends,
in order, the instance built for each check. -/
theorem buildLoop_ok {X U C K : Type} (cs : Constructors X U C K) :
    ∀ (vs : List (Check X U C)) (idx : Nat) (b : Build K),
      (∀ value ∈ vs, (construct cs value).2.2 = none) →
      (buildLoop cs vs idx b).2 = none ∧
      (buildLoop cs vs idx b).1.checks
        = b.checks ++ vs.map (fun value => (construct cs value).2.1) := by
  intro vs
  induction vs with
  | nil => intro idx b _; simp [buildLoop]
  | cons value rest ih =>
    intro idx b h
    have hv : (construct cs value).2.2 = none := h value (by simp)
    have hrest : ∀ w ∈ rest, (construct cs w).2.2 = none := fun w hw => h w (by simp [hw])
    simp only [buildLoop, hv]
    obtain ⟨h1, h2⟩ := ih (idx + 1)
      { checks := b.checks ++ [(construct cs value).2.1]
        calls := match (construct cs value).1 with
          | some c => b.calls ++ [(idx, c)]
          | none => b.calls } hrest
    exact ⟨h1, by rw [h2]; simp⟩

/-- When some constructor returns an error the loop ends in `log.Fatalf` at the
first check whose constructor does, and has called no constructor for a later
check. -/
theorem buildLoop_error {X U C K : Type} (cs : Constructors X U C K) :
    ∀ (vs : List (Check X U C)) (idx : Nat) (b : Build K),
      (∃ value ∈ vs, (construct cs value).2.2 ≠ none) →
      (∀ c ∈ b.calls, c.1 < idx) →
      ∃ (j : Nat) (value : Check X U C) (m : String),
        vs[j]? = some value ∧ (construct cs value).2.2 = some m ∧
        (∀ (i : Nat) (w : Check X U C), i < j → vs[i]? = some w →
          (construct cs w).2.2 = none) ∧
        (buildLoop cs vs idx b).2 = some m ∧
        (∀ c ∈ (buildLoop cs vs idx b).1.calls, c.1 ≤ idx + j) := by
  intro vs
  induction vs with
  | nil => intro idx b h _; simp at h
  | cons value rest ih =>
    intro idx b h hb
    cases hv : (construct cs value).2.2 with
    | some m =>
      refine ⟨0, value, m, by simp, hv, ?_, ?_, ?_⟩
      · intro i w hi; omega
      · simp [buildLoop, hv]
      · intro c hc
        simp only [buildLoop, hv] at hc
        cases hk : (construct cs value).1 with
        | none =>
          simp only [hk] at hc
          have := hb c hc
          omega
        | some k =>
          simp only [hk, List.mem_append, List.mem_singleton] at hc
          rcases hc with hc | hc
          · have := hb c hc
            omega
          · subst hc
            simp
    | none =>
      have hrest : ∃ w ∈ rest, (construct cs w).2.2 ≠ none := by
        obtain ⟨w, hw, hne⟩ := h
        simp only [List.mem_cons] at hw
        rcases hw with hw | hw
        · subst hw
          exact absurd hv hne
        · exact ⟨w, hw, hne⟩
      have hb2 : ∀ c ∈ (match (construct cs value).1 with
          | some c => b.calls ++ [(idx, c)]
          | none => b.calls), c.1 < idx + 1 := by
        intro c hc
        cases hk : (construct cs value).1 with
        | none =>
          simp only [hk] at hc
          have := hb c hc
          omega
        | some k =>
          simp only [hk, List.mem_append, List.mem_singleton] at hc
          rcases hc with hc | hc
          · have := hb c hc
            omega
          · subst hc
            simp
      obtain ⟨j, w, m, hj, hm, hfirst, hend, hcalls⟩ := ih (idx + 1)
        { checks := b.checks ++ [(construct cs value).2.1]
          calls := match (construct cs value).1 with
            | some c => b.calls ++ [(idx, c)]
            | none => b.calls } hrest hb2
      refine ⟨j + 1, w, m, by simpa using hj, hm, ?_, ?_, ?_⟩
      · intro i u hi hu
        cases i with
        | zero =>
          simp only [List.getElem?_cons_zero, Option.some.injEq] at hu
          subst hu
          exact hv
        | succ i =>
          simp only [List.getElem?_cons_succ] at hu
          exact hfirst i u (by omega) hu
      · simpa [buildLoop, hv] using hend
      · intro c hc
        simp only [buildLoop, hv] at hc
        have := hcalls c hc
        omega

/-- C5, evaluated on the code: for a configuration whose only check has the
`Type` "http", whatever the constructors, `main` calls no constructor, does not
end in `log.Fatalf`, appends the nil checker and starts the one-shot runner
(or the server) on the list `[nil]`; the one-shot runner then panics. -/
theorem unknown_check_type_appends_nil_checker
    (cs : Constructors Unit Unit Unit (List (ResultPtr Unit)))
    (Serialize : List (ResultPtr Unit) → Bool → Except String String) :
    main cs (.ok { Checks := [(⟨"http", 1, (), (), ()⟩ :
        Check Unit Unit Unit)] }) true
      = { calls := [], ending := .oneShotVersion [none] } ∧
    main cs (.ok { Checks := [(⟨"http", 1, (), (), ()⟩ :
        Check Unit Unit Unit)] }) false
      = { calls := [],
          ending := .Serve { Checks := [(⟨"http", 1, (), (), ()⟩ :
            Check Unit Unit Unit)] } [none] } ∧
    oneShotVersion Serialize [none] [] = some { stdout := "", termination := .panic } := by
  refine ⟨?_, ?_, ?_⟩
  · simp [main, buildLoop, construct]
  · simp [main, buildLoop, construct]
  · simp [oneShotVersion, oneShotLoop, spawn]

/-- C6: when the constructor of some configured check returns an error, `main`
ends in `log.Fatalf` with the error of the first such check in configuration
order; every constructor call it made is for that check or an earlier one; it
ends there, so neither `oneShotVersion` nor `server.Serve` is called and no
`Run` is started. -/
theorem config_error_is_fatal_at_first_failing_check {X U C K : Type}
    (cs : Constructors X U C K) (cf : Config X U C) (oneShot : Bool)
    (h : ∃ value ∈ cf.Checks, (construct cs value).2.2 ≠ none) :
    ∃ (j : Nat) (value : Check X U C) (m : String),
      cf.Checks[j]? = some value ∧ (construct cs value).2.2 = some m ∧
      (∀ (i : Nat) (w : Check X U C), i < j → cf.Checks[i]? = some w →
        (construct cs w).2.2 = none) ∧
      (main cs (.ok cf) oneShot).ending = .logFatalf m ∧
      (∀ c ∈ (main cs (.ok cf) oneShot).calls, c.1 ≤ j) := by
  obtain ⟨j, value, m, hj, hm, hfirst, hend, hcalls⟩ :=
    buildLoop_error cs cf.Checks 0 { checks := [], calls := [] } h (by simp)
  refine ⟨j, value, m, hj, hm, hfirst, ?_, ?_⟩
  · simp only [main]
    split
    · rename_i b m2 heq
      rw [heq] at hend
      simp only [Option.some.injEq] at hend
      rw [hend]
    · rename_i b heq
      rw [heq] at hend
      simp at hend
  · intro c hc
    simp only [main] at hc
    split at hc
    · rename_i b m2 heq
      rw [heq] at hcalls
      have := hcalls c hc
      omega
    · rename_i b heq
      rw [heq] at hend
      simp at hend

/-- Witness of C6: a shell check that is built, then a network check and a
shell check whose timeouts are refused: `main` ends at the network check. -/
theorem config_error_is_fatal_at_first_failing_check_witness :
    ∃ (j : Nat) (value : Check String String (List Nat)) (m : String),
      [(⟨"shell", 1, "true", "", []⟩ : Check String String (List Nat)),
        ⟨"network", 0, "", "http://localhost", [200]⟩, ⟨"shell", 0, "true", "", []⟩][j]?
        = some value ∧
      (construct exampleConstructors value).2.2 = some m ∧
      (∀ (i : Nat) (w : Check String String (List Nat)), i < j →
        [(⟨"shell", 1, "true", "", []⟩ : Check String String (List Nat)),
          ⟨"network", 0, "", "http://localhost", [200]⟩, ⟨"shell", 0, "true", "", []⟩][i]?
          = some w →
        (construct exampleConstructors w).2.2 = none) ∧
      (main exampleConstructors
        (.ok ⟨[(⟨"shell", 1, "true", "", []⟩ : Check String String (List Nat)),
          ⟨"network", 0, "", "http://localhost", [200]⟩, ⟨"shell", 0, "true", "", []⟩]⟩)
        true).ending = .logFatalf m ∧
      (∀ c ∈ (main exampleConstructors
        (.ok ⟨[(⟨"shell", 1, "true", "", []⟩ : Check String String (List Nat)),
          ⟨"network", 0, "", "http://localhost", [200]⟩, ⟨"shell", 0, "true", "", []⟩]⟩)
        true).calls, c.1 ≤ j) :=
  config_error_is_fatal_at_first_failing_check exampleConstructors
    ⟨[⟨"shell", 1, "true", "", []⟩, ⟨"network", 0, "", "http://localhost", [200]⟩,
      ⟨"shell", 0, "true", "", []⟩]⟩ true
    ⟨⟨"network", 0, "", "http://localhost", [200]⟩, by simp, by decide⟩

/-- C9: when every configured check has one of the types "shell", "command",
"network" and the constructor chosen by its type returns no error, `main`
hands to `oneShotVersion` (or to `server.Serve`) a checker list with as many
entries as the configuration, whose `i`-th entry is the instance returned by
`NewShellChecker`, `NewCommandChecker` or `NewNetworkChecker`, chosen by the
type of the `i`-th check, on that check's timeout and its `Exec` (shell,
command) or its `URL` and `StatusCodes` (network). -/
theorem probe_construction_is_ordered_map {X U C K : Type}
    (cs : Constructors X U C K) (cf : Config X U C) (oneShot : Bool)
    (hvalid : ∀ value ∈ cf.Checks,
      value.Type_ = "shell" ∨ value.Type_ = "command" ∨ value.Type_ = "network")
    (hok : ∀ value ∈ cf.Checks,
      (value.Type_ = "shell" → (cs.NewShellChecker value.Timeout value.Exec).2 = none) ∧
      (value.Type_ = "command" → (cs.NewCommandChecker value.Timeout value.Exec).2 = none) ∧
      (value.Type_ = "network" →
        (cs.NewNetworkChecker value.Timeout value.URL value.StatusCodes).2 = none)) :
    ∃ checks : List (Option K),
      (main cs (.ok cf) oneShot).ending
        = (if oneShot then .oneShotVersion checks else .Serve cf checks) ∧
      checks.length = cf.Checks.length ∧
      ∀ (i : Nat) (value : Check X U C), cf.Checks[i]? = some value →
        (value.Type_ = "shell" →
          checks[i]? = some (cs.NewShellChecker value.Timeout value.Exec).1) ∧
        (value.Type_ = "command" →
          checks[i]? = some (cs.NewCommandChecker value.Timeout value.Exec).1) ∧
        (value.Type_ = "network" →
          checks[i]? = some (cs.NewNetworkChecker value.Timeout value.URL value.StatusCodes).1) := by
  have herr : ∀ value ∈ cf.Checks, (construct cs value).2.2 = none := by
    intro value hv
    obtain ⟨h1, h2, h3⟩ := hok value hv
    rcases hvalid value hv with h | h | h
    · simp [construct, h, h1 h]
    · simp [construct, h, h2 h]
    · simp [construct, h, h3 h]
  obtain ⟨hnone, hchecks⟩ := buildLoop_ok cs cf.Checks 0 { checks := [], calls := [] } herr
  simp only [List.nil_append] at hchecks
  refine ⟨cf.Checks.map (fun value => (construct cs value).2.1), ?_, by simp, ?_⟩
  · simp only [main]
    split
    · rename_i b m heq
      rw [heq] at hnone
      simp at hnone
    · rename_i b heq
      rw [heq] at hchecks
      simp only at hchecks
      cases oneShot <;> simp [hchecks]
  · intro i value hi
    have hget : (cf.Checks.map (fun value => (construct cs value).2.1))[i]?
        = some (construct cs value).2.1 := by
      simp [List.getElem?_map, hi]
    refine ⟨?_, ?_, ?_⟩
    · intro h; rw [hget]; simp [construct, h]
    · intro h; rw [hget]; simp [construct, h]
    · intro h; rw [hget]; simp [construct, h]

/-- Witness of C9: a shell, a network and a command check, all built. -/
theorem probe_construction_is_ordered_map_witness :
    ∃ checks : List (Option (List (ResultPtr String))),
      (main exampleConstructors
        (.ok ⟨[(⟨"shell", 1, "true", "", []⟩ : Check String String (List Nat)),
          ⟨"network", 2, "", "http://localhost", [200]⟩, ⟨"command", 3, "ls", "", []⟩]⟩)
        true).ending = .oneShotVersion checks ∧
      checks.length = 3 :=
  have h := probe_construction_is_ordered_map exampleConstructors
    ⟨[⟨"shell", 1, "true", "", []⟩, ⟨"network", 2, "", "http://localhost", [200]⟩,
      ⟨"command", 3, "ls", "", []⟩]⟩ true (by decide) (by decide)
  h.imp (fun _ hc => ⟨hc.1, hc.2.1⟩)

end Ddoctor
